import Mathlib

/-!
A shallow embedding of the chronoforge memory pipeline
(`src/graph/knowledge_graph.py`, `src/core/validation.py`,
`src/core/game_engine.py`, `src/core/delayed_update.py`,
`src/core/sliding_window.py`, `src/core/conflict_resolver.py`,
`src/memory/grag_memory.py`, `api_server.py`) together with theorems
settling the specification claims about it.

Modelling conventions:
- Python dicts are insertion-ordered association lists (`List (String × _)`);
  `dict.update` replaces existing keys in place and appends new keys.
- Python attribute values are modelled by `AttrValue`
  (ints, strings, booleans, lists of small naturals).  Floats are not
  modelled (no claim exercises them).  List attribute values are modelled
  as lists of naturals; the CPython iteration order of `set(l)` is modelled
  for the domain where all elements are ints in `[0, 8)` and at most four
  are distinct, where the hash table keeps its initial eight slots, the
  slot of `n` is `n` itself, and iteration scans slots `0..7` in order.
- A `networkx.DiGraph` is a node association list plus an edge list with
  at most one edge per ordered node pair.
- `datetime.now()` timestamp strings are modelled as the fixed string
  `"<now>"`: no claim depends on their value.
- A raised Python exception inside attribute-conflict resolution
  (`min` over incompatible types) is modelled by `Option.none`.
-/


/-- A Python attribute value: int, string, boolean, or a list of small
naturals (see the module conventions above). -/
inductive AttrValue where
  | int (i : Int)
  | str (s : String)
  | bool (b : Bool)
  | list (l : List Nat)
deriving DecidableEq, Repr

/-- A Python dict with string keys, as an insertion-ordered association list. -/
abbrev Attrs := List (String × AttrValue)

/-- Models `d[k]` lookup: the first binding of `k`, if any (bindings are unique
in any dict built by the operations below). -/
def attrsGet (d : Attrs) (k : String) : Option AttrValue :=
  match d.find? (fun p => p.1 = k) with
  | some p => some p.2
  | none => none

/-- Set one key of a dict: replace the first binding in place, else append. -/
def attrsSet (d : Attrs) (k : String) (v : AttrValue) : Attrs :=
  match d with
  | [] => [(k, v)]
  | p :: rest => if p.1 = k then (k, v) :: rest else p :: attrsSet rest k v

/-- Python `dict.update(other)`: fold `attrsSet` over the other dict's
bindings in order. -/
def attrsUpdate (d other : Attrs) : Attrs :=
  other.foldl (fun acc p => attrsSet acc p.1 p.2) d

/-- Models `k in d` membership test. -/
def attrsHas (d : Attrs) (k : String) : Bool :=
  (attrsGet d k).isSome

/-- Models CPython `list(set(l))` for the modelled domain of list attribute
values: every element an int in `[0, 8)` with at most four distinct values,
so the hash table keeps eight slots, element `n` sits in slot `n`, and
iteration visits slots `0..7` in order. -/
def pySmallIntSetList (l : List Nat) : List Nat :=
  (List.range 8).filter (fun n => l.contains n)

/-- The state of `KnowledgeGraph` (`src/graph/knowledge_graph.py`): a
`networkx.DiGraph` with attributed nodes and one attributed edge per
ordered node pair.  Edges are kept as `(source, target, relationship)`;
the source's call sites pass no edge attribute other than `relationship`. -/
structure PyGraph where
  nodes : List (String × Attrs)
  edges : List (String × String × String)
deriving DecidableEq, Repr

/-- The empty graph (`KnowledgeGraph.__init__`). -/
def PyGraph.empty : PyGraph := ⟨[], []⟩

/-- Models `graph.has_node`. -/
def PyGraph.hasNode (g : PyGraph) (nodeId : String) : Bool :=
  g.nodes.any (fun p => p.1 = nodeId)

/-- Models `graph.nodes[node_id]`, defaulting to the empty dict when the node is
absent (the source call sites only read attributes of existing nodes). -/
def PyGraph.nodeAttrs (g : PyGraph) (nodeId : String) : Attrs :=
  match g.nodes.find? (fun p => p.1 = nodeId) with
  | some p => p.2
  | none => []

/-- Replace the attribute dict of a node in place. -/
def PyGraph.setNodeAttrs (g : PyGraph) (nodeId : String) (a : Attrs) : PyGraph :=
  { g with nodes := g.nodes.map (fun p => if p.1 = nodeId then (p.1, a) else p) }

/-- Models `KnowledgeGraph.add_or_update_node`: merge `type` into the keyword
attributes, then either `dict.update` the existing node's attributes or
insert a fresh node. -/
def PyGraph.addOrUpdateNode (g : PyGraph) (nodeId nodeType : String) (kwargs : Attrs) : PyGraph :=
  let attributes := attrsSet kwargs "type" (.str nodeType)
  if g.hasNode nodeId then
    g.setNodeAttrs nodeId (attrsUpdate (g.nodeAttrs nodeId) attributes)
  else
    { g with nodes := g.nodes ++ [(nodeId, attributes)] }

/-- Models `KnowledgeGraph.add_edge`: requires both endpoints, otherwise returns
with no side effect; `DiGraph.add_edge` overwrites the single edge slot of
the ordered pair `(source, target)`. -/
def PyGraph.addEdge (g : PyGraph) (sourceNode targetNode relationship : String) : PyGraph :=
  if ¬ g.hasNode sourceNode then g
  else if ¬ g.hasNode targetNode then g
  else if g.edges.any (fun e => e.1 = sourceNode ∧ e.2.1 = targetNode) then
    { g with edges := g.edges.map (fun e =>
        if e.1 = sourceNode ∧ e.2.1 = targetNode then (e.1, e.2.1, relationship) else e) }
  else
    { g with edges := g.edges ++ [(sourceNode, targetNode, relationship)] }

/-- Models `graph.has_edge`. -/
def PyGraph.hasEdge (g : PyGraph) (s t : String) : Bool :=
  g.edges.any (fun e => e.1 = s ∧ e.2.1 = t)

/-- The relationship labels of the edges between the ordered pair `(s, t)`. -/
def PyGraph.edgeLabelsBetween (g : PyGraph) (s t : String) : List String :=
  (g.edges.filter (fun e => e.1 = s ∧ e.2.1 = t)).map (fun e => e.2.2)

/-- Models `KnowledgeGraph.delete_node`: remove the node and all incident edges;
returns whether the node existed. -/
def PyGraph.deleteNode (g : PyGraph) (nodeId : String) : Bool × PyGraph :=
  if ¬ g.hasNode nodeId then (false, g)
  else
    (true,
      { nodes := g.nodes.filter (fun p => p.1 ≠ nodeId)
        edges := g.edges.filter (fun e => e.1 ≠ nodeId ∧ e.2.1 ≠ nodeId) })

/-- Models `KnowledgeGraph.delete_edge`: when a relationship is given, only a
matching edge is removed; returns whether an edge was removed. -/
def PyGraph.deleteEdge (g : PyGraph) (s t : String) (relationship : Option String) : Bool × PyGraph :=
  if ¬ g.hasEdge s t then (false, g)
  else
    match relationship with
    | some rel =>
      let current := (g.edges.find? (fun e => e.1 = s ∧ e.2.1 = t)).map (fun e => e.2.2)
      if current ≠ some rel then (false, g)
      else (true, { g with edges := g.edges.filter (fun e => ¬ (e.1 = s ∧ e.2.1 = t)) })
    | none => (true, { g with edges := g.edges.filter (fun e => ¬ (e.1 = s ∧ e.2.1 = t)) })

/-- Models `KnowledgeGraph.mark_node_as_deleted` (soft delete): set the
`_deleted`, `_deleted_reason` and `_deleted_timestamp` attributes of an
existing node; a missing node is only warned about. -/
def PyGraph.markNodeAsDeleted (g : PyGraph) (nodeId reason : String) : PyGraph :=
  if ¬ g.hasNode nodeId then g
  else
    let a := g.nodeAttrs nodeId
    let a := attrsSet a "_deleted" (.bool true)
    let a := attrsSet a "_deleted_reason" (.str reason)
    let a := attrsSet a "_deleted_timestamp" (.str "<now>")
    g.setNodeAttrs nodeId a

/-- Models `KnowledgeGraph.get_active_nodes`: ids of nodes not marked `_deleted`. -/
def PyGraph.getActiveNodes (g : PyGraph) : List String :=
  (g.nodes.filter (fun p => attrsGet p.2 "_deleted" ≠ some (.bool true))).map (fun p => p.1)

/-- Models `KnowledgeGraph.resolve_attribute_conflict`.  `none` models a raised
`TypeError` (Python `min` over an int and a non-int `max_health`); every
call site reaches this function only for nodes present in the graph. -/
def PyGraph.resolveAttributeConflict (g : PyGraph) (nodeId attr : String)
    (oldValue newValue : AttrValue) : Option AttrValue :=
  match oldValue, newValue with
  | .int o, .int n =>
    if attr = "health" ∨ attr = "hp" ∨ attr = "血量" then
      match attrsGet (g.nodeAttrs nodeId) "max_health" with
      | some (.int m) => some (.int (min n m))
      | some _ => none
      | none => some (.int (min n n))
    else if attr = "max_health" ∨ attr = "max_hp" ∨ attr = "最大血量" then
      some (.int (max o n))
    else if attr = "level" ∨ attr = "等级" then
      some (.int (max o n))
    else if attr = "experience" ∨ attr = "exp" ∨ attr = "经验" then
      some (.int (max o n))
    else some newValue
  | .list o, .list n => some (.list (pySmallIntSetList (o ++ n)))
  | _, _ => some newValue

/-- Resolve every conflicting key of an incoming attribute dict against the
existing attributes (the loop body of
`add_or_update_node_with_conflict_resolution`); `none` as soon as one
resolution raises. -/
def resolveAttrs (g : PyGraph) (nodeId : String) (existing incoming : Attrs) :
    Option Attrs :=
  incoming.foldl
    (fun acc p =>
      match acc with
      | none => none
      | some resolved =>
        match attrsGet existing p.1 with
        | some oldValue =>
          match g.resolveAttributeConflict nodeId p.1 oldValue p.2 with
          | some v => some (attrsSet resolved p.1 v)
          | none => none
        | none => some (attrsSet resolved p.1 p.2))
    (some existing)

/-- Models `KnowledgeGraph.add_or_update_node_with_conflict_resolution`: fresh
nodes are inserted directly; for an existing node every attribute conflict
is resolved before the node is updated.  A raised resolution (`none`)
leaves the graph unchanged (the exception fires before any mutation). -/
def PyGraph.addOrUpdateNodeCR (g : PyGraph) (nodeId nodeType : String) (kwargs : Attrs) :
    Option PyGraph :=
  let attributes := attrsSet kwargs "type" (.str nodeType)
  if g.hasNode nodeId then
    match resolveAttrs g nodeId (g.nodeAttrs nodeId) attributes with
    | some resolved => some (g.setNodeAttrs nodeId (attrsUpdate (g.nodeAttrs nodeId) resolved))
    | none => none
  else
    some { g with nodes := g.nodes ++ [(nodeId, attributes)] }

/-- Models `networkx` successors of a node: targets of its outgoing edges. -/
def PyGraph.succ (g : PyGraph) (nodeId : String) : List String :=
  (g.edges.filter (fun e => e.1 = nodeId)).map (fun e => e.2.1)

/-- The node set of `nx.ego_graph(g, s, radius := d)` on a directed graph:
nodes within `d` hops of `s` following outgoing edges, computed by `d`
frontier expansions. -/
def PyGraph.egoNodes (g : PyGraph) (s : String) : Nat → List String
  | 0 => [s]
  | d + 1 =>
    let prev := g.egoNodes s d
    prev ++ (prev.flatMap g.succ).filter (fun n => ¬ prev.contains n)

/-- The node set of `KnowledgeGraph.get_subgraph_for_context`: the union,
over the seeds present in the graph, of the seed and its ego-graph nodes. -/
def PyGraph.subgraphNodes (g : PyGraph) (entityIds : List String) (depth : Nat) : List String :=
  entityIds.foldl
    (fun acc entityId =>
      if g.hasNode entityId then
        let ego := g.egoNodes entityId depth
        (acc ++ [entityId] ++ ego).dedup
      else acc)
    []

/-- Reachability along at most `d` outgoing edges (the specification's
"`d` hops"), with the final hop peeled at the end. -/
inductive PyGraph.ReachLe (g : PyGraph) : Nat → String → String → Prop where
  | refl (d : Nat) (s : String) : PyGraph.ReachLe g d s s
  | tail {d : Nat} {s x m r : String} :
      PyGraph.ReachLe g d s x → (x, m, r) ∈ g.edges →
      PyGraph.ReachLe g (d + 1) s m

/-- A `nodes_to_add` entry of the execution format
(`convert_to_execution_format`, `rpg_text_processor`). -/
structure PlanNodeAdd where
  node_id : String
  type : String
  attributes : Attrs
deriving DecidableEq, Repr

/-- A `nodes_to_update` entry.  `convert_to_execution_format` emits no
`type` key for these, so `type?` is the optional `node_update.get("type")`. -/
structure PlanNodeUpdate where
  node_id : String
  type? : Option String := none
  attributes : Attrs := []
deriving DecidableEq, Repr

/-- An `edges_to_add` entry; the `attributes` emitted by the converter are
never read by the apply paths, which pass only `relationship` on. -/
structure PlanEdgeAdd where
  source : String
  target : String
  relationship : String
  attributes : Attrs := []
deriving DecidableEq, Repr

/-- A `nodes_to_delete` entry. -/
structure PlanNodeDelete where
  node_id : String
  deletion_type : String := "default"
  reason : String := ""
deriving DecidableEq, Repr

/-- An `edges_to_delete` entry; `none` models a missing key
(`edge_deletion.get(...)` returning `None`). -/
structure PlanEdgeDelete where
  source : Option String := none
  target : Option String := none
  relationship : Option String := none
  reason : String := ""
deriving DecidableEq, Repr

/-- The execution-format update dictionary shared by
`convert_to_execution_format`, `ValidationLayer.validate` and the apply
paths. -/
structure UpdatePlan where
  nodes_to_add : List PlanNodeAdd := []
  nodes_to_update : List PlanNodeUpdate := []
  edges_to_add : List PlanEdgeAdd := []
  nodes_to_delete : List PlanNodeDelete := []
  edges_to_delete : List PlanEdgeDelete := []
deriving DecidableEq, Repr

/-- Models `ValidationLayer.validate` (`src/core/validation.py`): the placeholder
performs no validation and returns the incoming updates unmodified. -/
def ValidationLayer.validate (updates : UpdatePlan) (_kg : PyGraph) : UpdatePlan :=
  updates

/-- One node deletion of `GameEngine._process_deletion_events`:
`deletion_type = "death"` soft-deletes, `"lost"` hard-deletes (counted only
when the node existed), anything else soft-deletes; soft deletion is
counted even when the node is missing. -/
def processNodeDeletion (g : PyGraph) (nd : PlanNodeDelete) : PyGraph × Nat :=
  if nd.deletion_type = "death" then
    (g.markNodeAsDeleted nd.node_id nd.reason, 1)
  else if nd.deletion_type = "lost" then
    match g.deleteNode nd.node_id with
    | (true, g') => (g', 1)
    | (false, g') => (g', 0)
  else
    (g.markNodeAsDeleted nd.node_id nd.reason, 1)

/-- One edge deletion of `GameEngine._process_deletion_events`.  The
wildcard branch runs only when `source` or `relationship` is `"*"` (a
wildcard `target` alone takes the exact branch); it removes every matching
edge via `delete_edge`. -/
def processEdgeDeletion (g : PyGraph) (ed : PlanEdgeDelete) : PyGraph × Nat :=
  if ed.source = some "*" ∨ ed.relationship = some "*" then
    let hits := g.edges.filter (fun e =>
      (ed.source = some "*" ∨ ed.source = some e.1) ∧
      (ed.target = some "*" ∨ ed.target = some e.2.1) ∧
      (ed.relationship = some "*" ∨ ed.relationship = some e.2.2))
    hits.foldl
      (fun (acc : PyGraph × Nat) e =>
        match acc.1.deleteEdge e.1 e.2.1 (some e.2.2) with
        | (true, g') => (g', acc.2 + 1)
        | (false, g') => (g', acc.2))
      (g, 0)
  else
    match ed.source, ed.target with
    | some s, some t =>
      match g.deleteEdge s t ed.relationship with
      | (true, g') => (g', 1)
      | (false, g') => (g', 0)
    | _, _ => (g, 0)

/-- Models `GameEngine._process_deletion_events`: node deletions, then edge
deletions, with counts. -/
def processDeletionEvents (g : PyGraph) (u : UpdatePlan) : PyGraph × Nat × Nat :=
  let nodePhase := u.nodes_to_delete.foldl
    (fun (acc : PyGraph × Nat) nd =>
      ((processNodeDeletion acc.1 nd).1, acc.2 + (processNodeDeletion acc.1 nd).2))
    (g, 0)
  let edgePhase := u.edges_to_delete.foldl
    (fun (acc : PyGraph × Nat) ed =>
      ((processEdgeDeletion acc.1 ed).1, acc.2 + (processEdgeDeletion acc.1 ed).2))
    (nodePhase.1, 0)
  (edgePhase.1, nodePhase.2, edgePhase.2)

/-- One `nodes_to_update` entry of `GameEngine._apply_validated_updates`:
a missing node is created with the plan's type (defaulting to `"unknown"`,
upgraded to `"character"` when the attributes carry a `location`); an
existing node keeps its stored type and is merged through conflict
resolution.  The `Bool` is false when the merge raised (the
`except` branch, which decrements the updated-nodes count). -/
def applyNodeUpdate (g : PyGraph) (nu : PlanNodeUpdate) : PyGraph × Bool :=
  if ¬ g.hasNode nu.node_id then
    let nodeType := nu.type?.getD "unknown"
    let nodeType := if nodeType = "unknown" ∧ attrsHas nu.attributes "location" then
        "character" else nodeType
    match g.addOrUpdateNodeCR nu.node_id nodeType nu.attributes with
    | some g' => (g', true)
    | none => (g, false)
  else
    let existingType := match attrsGet (g.nodeAttrs nu.node_id) "type" with
      | some (.str t) => t
      | _ => "unknown"
    match g.addOrUpdateNodeCR nu.node_id existingType nu.attributes with
    | some g' => (g', true)
    | none => (g, false)

/-- Models `GameEngine._apply_validated_updates`: deletion events first, then the
`nodes_to_update` entries, then the `edges_to_add` entries.  The returned
counts are `(nodes_updated, edges_added, nodes_deleted, edges_deleted)`;
the first starts at the length of `nodes_to_update` and is decremented on
a raised update, the second at the length of `edges_to_add` (`add_edge`
does not raise on a missing endpoint, so it is never decremented).
Entries of `nodes_to_add` are read by neither phase. -/
def applyValidatedUpdates (g : PyGraph) (u : UpdatePlan) :
    PyGraph × Nat × Nat × Nat × Nat :=
  let nodesUpdated0 := u.nodes_to_update.length
  let edgesAdded := u.edges_to_add.length
  let del := processDeletionEvents g u
  let nodePhase := u.nodes_to_update.foldl
    (fun (acc : PyGraph × Nat) nu =>
      ((applyNodeUpdate acc.1 nu).1,
        if (applyNodeUpdate acc.1 nu).2 then acc.2 else acc.2 - 1))
    (del.1, nodesUpdated0)
  let g3 := u.edges_to_add.foldl
    (fun acc e => acc.addEdge e.source e.target e.relationship)
    nodePhase.1
  (g3, nodePhase.2, edgesAdded, del.2.1, del.2.2)

/-- Models `DelayedUpdateManager._apply_updates`: the windowed apply path reads
only `nodes_to_update` (through `memory.add_or_update_node`, i.e. conflict
resolution) and `edges_to_add`; deletions and `nodes_to_add` are never
touched.  Returns the graph and the applied-update count (`add_edge` does
not raise, so every edge entry is counted). -/
def delayedApplyUpdates (g : PyGraph) (u : UpdatePlan) : PyGraph × Nat :=
  let nodePhase := u.nodes_to_update.foldl
    (fun (acc : PyGraph × Nat) nu =>
      match acc.1.addOrUpdateNodeCR nu.node_id (nu.type?.getD "unknown") nu.attributes with
      | some g' => (g', acc.2 + 1)
      | none => (acc.1, acc.2))
    (g, 0)
  u.edges_to_add.foldl
    (fun (acc : PyGraph × Nat) e =>
      (acc.1.addEdge e.source e.target e.relationship, acc.2 + 1))
    nodePhase

/-- Well-formedness of the `DiGraph` edge list: at most one edge per
ordered node pair (every reachable graph state satisfies this). -/
def ApplyLemmas.EdgePairsNodup (g : PyGraph) : Prop :=
  (g.edges.map (fun e => (e.1, e.2.1))).Nodup

instance (g : PyGraph) : Decidable (ApplyLemmas.EdgePairsNodup g) := by
  unfold ApplyLemmas.EdgePairsNodup
  infer_instance

/-- The spec's wording of list-attribute merging, for the refinement
comparison only: "set-union, order preserved, duplicates removed" — keep
the first occurrence of every element of `old ++ new` in input order. -/
def specOrderPreservedUnion (oldValue newValue : List Nat) : List Nat :=
  (oldValue ++ newValue).foldl
    (fun acc x => if acc.contains x then acc else acc ++ [x]) []

/-- A turn identifier (`src/core/sliding_window.py` stores `str(uuid.uuid4())`).
`gen n` is the n-th uuid generated by the process, `ext s` any other string
(such as an id supplied by the external chat host); a uuid4 collision with
a host-chosen string has negligible probability and is modelled as
impossible. -/
inductive TurnId where
  | gen (n : Nat)
  | ext (s : String)
deriving DecidableEq, Repr

/-- Python truthiness of an id string: only the empty string is falsy
(generated uuid strings are never empty). -/
def turnIdTruthy : TurnId → Bool
  | .ext "" => false
  | _ => true

/-- Models `ConversationTurn` (timestamps are not modelled: no claim reads them;
`grag_timestamp` is likewise omitted). -/
structure ConversationTurn where
  turn_id : TurnId
  sequence : Nat
  user_input : String
  llm_response : String
  grag_processed : Bool := false
  version : Nat := 1
deriving DecidableEq, Repr

/-- Models `SlidingWindowManager` state.  The `turn_id_map` of the source is the
same objects indexed by id; it is modelled by lookup in `conversations`
(faithful while the window's ids are pairwise distinct, which uuid
generation guarantees and the `WF` predicate below captures).
`uuidCounter` numbers the uuid4 supply.  `window_size ≥ 1` is assumed
(the source's eviction branch raises `IndexError` for a size-0 window). -/
structure SlidingWindowManager where
  window_size : Nat := 4
  processing_delay : Nat := 1
  conversations : List ConversationTurn := []
  sequence_counter : Nat := 0
  uuidCounter : Nat := 0
deriving DecidableEq, Repr

/-- Models `SlidingWindowManager.add_turn`: assign the next sequence number and a
fresh uuid, evict the oldest turn when the window is full, append. -/
def SlidingWindowManager.addTurn (m : SlidingWindowManager) (u l : String) :
    ConversationTurn × SlidingWindowManager :=
  let seq := m.sequence_counter + 1
  let turn : ConversationTurn :=
    { turn_id := .gen m.uuidCounter, sequence := seq, user_input := u, llm_response := l }
  let convs := if m.conversations.length ≥ m.window_size then
      m.conversations.drop 1 else m.conversations
  (turn,
    { m with
      conversations := convs ++ [turn]
      sequence_counter := seq
      uuidCounter := m.uuidCounter + 1 })

/-- Models `SlidingWindowManager.get_processing_target`: `None` when the window
holds at most `processing_delay` turns, otherwise the turn at index
`len - 1 - processing_delay` (`conversations[-(delay + 1)]`), and `None`
when that turn is already processed. -/
def SlidingWindowManager.getProcessingTarget (m : SlidingWindowManager) :
    Option ConversationTurn :=
  if m.conversations.length ≤ m.processing_delay then none
  else
    match m.conversations.get? (m.conversations.length - 1 - m.processing_delay) with
    | none => none
    | some t => if t.grag_processed then none else some t

/-- Models `SlidingWindowManager.get_turn_by_id` (via `turn_id_map`). -/
def SlidingWindowManager.getTurnById (m : SlidingWindowManager) (id : TurnId) :
    Option ConversationTurn :=
  m.conversations.find? (fun t => t.turn_id = id)

/-- Models `SlidingWindowManager.is_in_window`. -/
def SlidingWindowManager.isInWindow (m : SlidingWindowManager) (id : TurnId) : Bool :=
  (m.getTurnById id).isSome

/-- Models `SlidingWindowManager.mark_processed`: set `grag_processed` on the turn
with the given id; `false` when the id is unknown. -/
def SlidingWindowManager.markProcessed (m : SlidingWindowManager) (id : TurnId)
    (success : Bool) : Bool × SlidingWindowManager :=
  if m.conversations.any (fun t => t.turn_id = id) then
    (true,
      { m with
        conversations := m.conversations.map (fun t =>
          if t.turn_id = id then { t with grag_processed := success } else t) })
  else (false, m)

/-- Models `SlidingWindowManager.update_turn`: overwrite the provided fields,
clear `grag_processed`, bump `version`; `false` when the id is unknown. -/
def SlidingWindowManager.updateTurn (m : SlidingWindowManager) (id : TurnId)
    (u l : Option String) : Bool × SlidingWindowManager :=
  if m.conversations.any (fun t => t.turn_id = id) then
    (true,
      { m with
        conversations := m.conversations.map (fun t =>
          if t.turn_id = id then
            { t with
              user_input := u.getD t.user_input
              llm_response := l.getD t.llm_response
              grag_processed := false
              version := t.version + 1 }
          else t) })
  else (false, m)

/-- The window-state effect of
`DelayedUpdateManager.process_new_conversation`: append the new turn, pick
the processing target, and — when a target exists — mark it with the
outcome of the GRAG analysis.  The analysis itself touches only the memory
(graph) and statistics, never the window; `gragSuccess` abstracts its
outcome (both the normal path and the exception handler mark the target
with exactly that flag). -/
def processNewConversation (m : SlidingWindowManager) (u l : String)
    (gragSuccess : Bool) : SlidingWindowManager × Option ConversationTurn :=
  let a := m.addTurn u l
  match a.2.getProcessingTarget with
  | none => (a.2, none)
  | some target => ((a.2.markProcessed target.turn_id gragSuccess).2, some target)

/-- Returns `true` iff the id is a generated uuid numbered below the supply
counter `c`. -/
def TurnId.isGenBelow (c : Nat) : TurnId → Bool
  | .gen n => n < c
  | .ext _ => false

/-- Every id in the window is a generated uuid numbered below the supply
counter, and the window's ids are pairwise distinct — both hold for every
state reachable from a fresh manager. -/
def SlidingWindowManager.WF (m : SlidingWindowManager) : Prop :=
  (∀ t ∈ m.conversations, TurnId.isGenBelow m.uuidCounter t.turn_id = true) ∧
  (m.conversations.map (fun t => t.turn_id)).Nodup

instance (m : SlidingWindowManager) : Decidable m.WF := by
  unfold SlidingWindowManager.WF
  infer_instance

/-- The delay invariant's state predicate: the most recent
`processing_delay` turns of the window are unprocessed. -/
def SlidingWindowManager.recentUnprocessed (m : SlidingWindowManager) : Prop :=
  ∀ t ∈ m.conversations.drop (m.conversations.length - m.processing_delay),
    t.grag_processed = false

instance (m : SlidingWindowManager) : Decidable m.recentUnprocessed := by
  unfold SlidingWindowManager.recentUnprocessed
  exact List.decidableBAll _ _

/-- A concrete one-turn window (size 4, delay 1) used by witnesses. -/
def exampleWindow : SlidingWindowManager :=
  { conversations :=
      [{ turn_id := .gen 0, sequence := 1, user_input := "u1", llm_response := "r1" }]
    sequence_counter := 1
    uuidCounter := 1 }

/-- One record of the external host's `tavern_history`
(`sync_conversation_state`).  `timestampAgeHours` is the age of the
record's timestamp at sync time in hours (`none` models a missing or
unparsable timestamp, which the source treats as acceptable). -/
structure TavernTurn where
  id : Option TurnId := none
  sequence : Option Nat := none
  user : String := ""
  assistant : String := ""
  timestampAgeHours : Option Int := none
deriving DecidableEq, Repr

/-- The counters accumulated by `sync_conversation_state` /
`_process_tavern_turn`. -/
structure SyncResult where
  conflicts_detected : Nat := 0
  conflicts_resolved : Nat := 0
  out_of_window : Nat := 0
  new_turns : Nat := 0
  updated_turns : Nat := 0
deriving DecidableEq, Repr

/-- Field-wise accumulation of per-record results (the statistics loop of
`sync_conversation_state`). -/
def SyncResult.add (a b : SyncResult) : SyncResult :=
  { conflicts_detected := a.conflicts_detected + b.conflicts_detected
    conflicts_resolved := a.conflicts_resolved + b.conflicts_resolved
    out_of_window := a.out_of_window + b.out_of_window
    new_turns := a.new_turns + b.new_turns
    updated_turns := a.updated_turns + b.updated_turns }

/-- Models `ConversationState`, the snapshot kept per synced turn.  The source
stores the first 16 hex characters of a SHA-256 of
`user + "||" + assistant`; the hash is modelled by the hashed content
itself (an injective abstraction — collisions are infeasible). -/
structure ConversationState where
  turn_id : TurnId
  sequence : Nat
  content_hash : String
  version : Nat
  grag_processed : Bool
deriving DecidableEq, Repr

/-- Models `ConversationState._calculate_content_hash`, under the injective
abstraction above. -/
def contentHash (userInput llmResponse : String) : String :=
  userInput ++ "||" ++ llmResponse

/-- Models `ConversationState.__init__` from a turn. -/
def mkSnapshot (t : ConversationTurn) : ConversationState :=
  { turn_id := t.turn_id
    sequence := t.sequence
    content_hash := contentHash t.user_input t.llm_response
    version := t.version
    grag_processed := t.grag_processed }

/-- Set one key of the snapshot dict (`state_snapshots[id] = snapshot`). -/
def snapshotsSet (l : List (TurnId × ConversationState)) (id : TurnId)
    (s : ConversationState) : List (TurnId × ConversationState) :=
  match l with
  | [] => [(id, s)]
  | p :: rest => if p.1 = id then (id, s) :: rest else p :: snapshotsSet rest id s

/-- Models `state_snapshots.get(id)`. -/
def snapshotsGet (l : List (TurnId × ConversationState)) (id : TurnId) :
    Option ConversationState :=
  match l.find? (fun p => p.1 = id) with
  | some p => some p.2
  | none => none

/-- The `ConflictResolver` state that `sync_conversation_state` touches:
the sliding window and the snapshot map.  The sync path never references
the knowledge graph or the memory — its only collaborator is the window. -/
structure ConflictResolver where
  window : SlidingWindowManager
  snapshots : List (TurnId × ConversationState) := []
deriving DecidableEq, Repr

/-- Python `str.strip()` produces an empty (falsy) string: every character
is whitespace. -/
def pyStripEmpty (s : String) : Bool :=
  s.toList.all (fun c => c = ' ' ∨ c = '\t' ∨ c = '\n' ∨ c = '\r')

/-- Models `ConflictResolver._should_add_turn_to_window`: reject records whose
stripped contents are both empty, and records older than 24 hours. -/
def shouldAddTurnToWindow (r : TavernTurn) : Bool :=
  if pyStripEmpty r.user ∧ pyStripEmpty r.assistant then false
  else
    match r.timestampAgeHours with
    | some age => if age > 24 then false else true
    | none => true

/-- Models `ConflictResolver._handle_existing_turn_conflict`: with no stored
snapshot nothing happens; with a snapshot whose hash differs, a conflict is
detected and resolved by `update_turn` ("latest wins"), and the snapshot is
refreshed from the updated turn. -/
def handleExistingTurnConflict (st : ConflictResolver) (existing : ConversationTurn)
    (newUser newLlm : String) : SyncResult × ConflictResolver :=
  match snapshotsGet st.snapshots existing.turn_id with
  | none => ({}, st)
  | some snap =>
    if snap.content_hash ≠ contentHash newUser newLlm then
      let r := st.window.updateTurn existing.turn_id (some newUser) (some newLlm)
      if r.1 then
        match r.2.getTurnById existing.turn_id with
        | some updated =>
          ({ conflicts_detected := 1, conflicts_resolved := 1, updated_turns := 1 },
            { window := r.2
              snapshots := snapshotsSet st.snapshots updated.turn_id (mkSnapshot updated) })
        | none =>
          ({ conflicts_detected := 1, conflicts_resolved := 1, updated_turns := 1 },
            { window := r.2, snapshots := st.snapshots })
      else
        ({ conflicts_detected := 1 }, { st with window := r.2 })
    else ({}, st)

/-- Models `ConflictResolver._process_tavern_turn`.  `windowSequences` is computed
once per sync from the pre-sync window.  A record whose (truthy) sequence
lies outside it counts `out_of_window` and is skipped; a record without a
truthy id is skipped; a known id goes through conflict handling; an unknown
id passing `_should_add_turn_to_window` is appended with a fresh uuid and
snapshotted. -/
def processTavernTurn (st : ConflictResolver) (windowSequences : List Nat)
    (r : TavernTurn) : SyncResult × ConflictResolver :=
  let outOfWindow : Bool :=
    match r.sequence with
    | some s => s != 0 && ! windowSequences.contains s
    | none => false
  if outOfWindow then ({ out_of_window := 1 }, st)
  else
    match r.id with
    | none => ({}, st)
    | some tid =>
      if ¬ turnIdTruthy tid then ({}, st)
      else
        match st.window.getTurnById tid with
        | some existing => handleExistingTurnConflict st existing r.user r.assistant
        | none =>
          if shouldAddTurnToWindow r then
            let a := st.window.addTurn r.user r.assistant
            ({ new_turns := 1 },
              { window := a.2
                snapshots := snapshotsSet st.snapshots a.1.turn_id (mkSnapshot a.1) })
          else ({}, st)

/-- Models `ConflictResolver._check_for_deleted_turns`: the number of window
turns whose id is absent from the (truthy) ids of the delivered history;
the window itself is not modified. -/
def checkForDeletedTurns (history : List TavernTurn) (st : ConflictResolver) : Nat :=
  let tavernIds := history.filterMap (fun r =>
    match r.id with
    | some tid => if turnIdTruthy tid then some tid else none
    | none => none)
  (st.window.conversations.filter (fun t => ¬ tavernIds.contains t.turn_id)).length

/-- Models `ConflictResolver.sync_conversation_state`: process every record
against the pre-sync window sequences, then count deleted turns; returns
the accumulated counters, the `deleted_turns` and `synced_turns` counts,
and the post state. -/
def syncConversationState (st : ConflictResolver) (history : List TavernTurn) :
    SyncResult × Nat × Nat × ConflictResolver :=
  let windowSequences := st.window.conversations.map (fun t => t.sequence)
  let pass := history.foldl
    (fun (acc : SyncResult × ConflictResolver) r =>
      ((acc.1).add (processTavernTurn acc.2 windowSequences r).1,
        (processTavernTurn acc.2 windowSequences r).2))
    ({}, st)
  (pass.1, checkForDeletedTurns history pass.2, history.length, pass.2)

/-- Every id in the window is a generated uuid (no host-supplied id). -/
def allGenIds (m : SlidingWindowManager) : Bool :=
  m.conversations.all (fun t =>
    match t.turn_id with
    | .gen _ => true
    | .ext _ => false)

/-- A resolver over the one-turn example window, used by witnesses. -/
def exampleResolver : ConflictResolver := { window := exampleWindow }

/-- Models `BasicMemory.get_context`: format the last `recentTurns` history pairs
(`conversation_history[-recent_turns:]`; the Python slice `[-0:]` is the
whole list) as `用户: …` / `AI: …` lines joined by newlines. -/
def getContext (history : List (String × String)) (recentTurns : Nat) : String :=
  let recent := if recentTurns = 0 then history
    else history.drop (history.length - recentTurns)
  String.intercalate "\n"
    (recent.foldr (fun c acc => ("用户: " ++ c.1) :: ("AI: " ++ c.2) :: acc) [])

/-- The `world_state_context` string of
`GRAGMemory.retrieve_context_for_prompt`; the stored `world_time` value is
falsy when absent or empty. -/
def worldStateContext (worldTime : Option String) : String :=
  "[Current World State]\n- World Time: " ++
    (match worldTime with
     | some s => if s = "" then "Not set" else s
     | none => "Not set") ++ "\n"

/-- Models `GRAGMemory.get_knowledge_graph_context` for an empty entity list. -/
def noEntitiesGraphContext : String :=
  "No entities provided for knowledge graph retrieval."

/-- Models `GRAGMemory.retrieve_context_for_prompt`: the three labelled sections
in order — recent history, world state, knowledge graph.  The graph
section's text (`get_knowledge_graph_context` via
`to_text_representation`) is passed in as `graphContext`; the claims
depend only on where the section sits in the composition, not on its
internal formatting. -/
def retrieveContextForPrompt (history : List (String × String))
    (worldTime : Option String) (graphContext : String) (recentTurns : Nat) : String :=
  "## Recent Conversation History\n" ++ getContext history recentTurns ++
    "\n\n## " ++ worldStateContext worldTime ++
    "\n## Relevant Knowledge Graph\n" ++ graphContext

/-- Python `s[:k]` for a possibly negative `k`: a negative stop counts from
the end (`max 0 (len + k)` characters).  Slicing is by characters, so it
is computed on the string's character list. -/
def pySliceTo (s : String) (k : Int) : String :=
  if k < 0 then String.mk (s.toList.take (((s.length : Int) + k).toNat))
  else String.mk (s.toList.take k.toNat)

/-- The truncation marker appended by `enhance_prompt`. -/
def truncationMarker : String := "\n[...context truncated...]"

/-- The truncation step of the `/enhance_prompt` endpoint
(`api_server.py`): when the composed context exceeds
`max_context_length`, keep `context[:max_context_length - 100]` and append
the marker. -/
def enhancePromptTruncate (context : String) (maxLen : Nat) : String :=
  if context.length > maxLen then
    pySliceTo context ((maxLen : Int) - 100) ++ truncationMarker
  else context

/-- The `recent_turns` computation of `/enhance_prompt`:
`min(max_context_length // 200, 5) if max_context_length else 3`. -/
def enhanceRecentTurns (maxLen : Nat) : Nat :=
  if maxLen ≠ 0 then min (maxLen / 200) 5 else 3

/-- The context pipeline of `/enhance_prompt`: compose the three sections,
then truncate against the caller-supplied `max_context_length`. -/
def enhancePromptContext (history : List (String × String))
    (worldTime : Option String) (graphContext : String) (maxLen : Nat) : String :=
  enhancePromptTruncate
    (retrieveContextForPrompt history worldTime graphContext
      (enhanceRecentTurns maxLen))
    maxLen

namespace PyGraphLemmas

theorem reachLe_mono {g : PyGraph} {d : Nat} {s m : String}
    (h : g.ReachLe d s m) : g.ReachLe (d + 1) s m := by
  induction h with
  | refl => exact .refl _ _
  | tail _ he ih => exact .tail ih he

theorem mem_succ_iff {g : PyGraph} {x m : String} :
    m ∈ g.succ x ↔ ∃ r, (x, m, r) ∈ g.edges := by
  simp only [PyGraph.succ, List.mem_map, List.mem_filter, ]
  constructor
  · rintro ⟨⟨a, b, c⟩, ⟨hmem, hsrc⟩, htgt⟩
    simp only [decide_eq_true_eq] at hsrc
    subst hsrc
    subst htgt
    exact ⟨c, hmem⟩
  · rintro ⟨r, hmem⟩
    exact ⟨(x, m, r), ⟨hmem, by simp⟩, rfl⟩

theorem mem_egoNodes_iff {g : PyGraph} {s m : String} {d : Nat} :
    m ∈ g.egoNodes s d ↔ g.ReachLe d s m := by
  induction d generalizing m with
  | zero =>
    simp only [PyGraph.egoNodes, List.mem_singleton]
    constructor
    · rintro rfl; exact .refl _ _
    · rintro h; cases h; rfl
  | succ d ih =>
    simp only [PyGraph.egoNodes, List.mem_append, List.mem_filter, List.mem_flatMap]
    constructor
    · rintro (hprev | ⟨⟨x, hx, hsu⟩, -⟩)
      · exact reachLe_mono (ih.mp hprev)
      · obtain ⟨r, hr⟩ := mem_succ_iff.mp hsu
        exact .tail (ih.mp hx) hr
    · intro h
      cases h with
      | refl => exact Or.inl (ih.mpr (.refl _ _))
      | tail hreach he =>
        by_cases hm : m ∈ g.egoNodes s d
        · exact Or.inl hm
        · refine Or.inr ⟨⟨_, ih.mpr hreach, mem_succ_iff.mpr ⟨_, he⟩⟩, ?_⟩
          simpa using hm

theorem mem_subgraphNodes_aux {g : PyGraph} {ids : List String} {d : Nat}
    (acc : List String) (m : String) :
    m ∈ ids.foldl
      (fun acc entityId =>
        if g.hasNode entityId then
          let ego := g.egoNodes entityId d
          (acc ++ [entityId] ++ ego).dedup
        else acc) acc ↔
      m ∈ acc ∨ ∃ s ∈ ids, g.hasNode s ∧ m ∈ g.egoNodes s d := by
  induction ids generalizing acc with
  | nil => simp
  | cons hd tl ih =>
    simp only [List.foldl_cons]
    by_cases hhd : g.hasNode hd
    · simp only [hhd, if_true]
      rw [ih]
      simp only [List.mem_dedup, List.mem_append, List.mem_singleton]
      constructor
      · rintro (((hacc | rfl) | hego) | ⟨s, hs, hn, he⟩)
        · exact Or.inl hacc
        · exact Or.inr ⟨m, by simp, hhd, mem_egoNodes_iff.mpr (.refl _ _)⟩
        · exact Or.inr ⟨hd, by simp, hhd, hego⟩
        · exact Or.inr ⟨s, by simp [hs], hn, he⟩
      · rintro (hacc | ⟨s, hs, hn, he⟩)
        · exact Or.inl (Or.inl (Or.inl hacc))
        · rcases List.mem_cons.mp hs with rfl | hs
          · exact Or.inl (Or.inr he)
          · exact Or.inr ⟨s, hs, hn, he⟩
    · simp only [hhd, if_false]
      rw [ih]
      constructor
      · rintro (hacc | ⟨s, hs, hn, he⟩)
        · exact Or.inl hacc
        · exact Or.inr ⟨s, by simp [hs], hn, he⟩
      · rintro (hacc | ⟨s, hs, hn, he⟩)
        · exact Or.inl hacc
        · rcases List.mem_cons.mp hs with rfl | hs
          · exact absurd hn (by simpa using hhd)
          · exact Or.inr ⟨s, hs, hn, he⟩

/-- Membership in the retrieved subgraph is reachability from a present
seed along at most `depth` outgoing edges. -/
theorem mem_subgraphNodes_iff {g : PyGraph} {ids : List String} {d : Nat} {m : String} :
    m ∈ g.subgraphNodes ids d ↔ ∃ s ∈ ids, g.hasNode s ∧ g.ReachLe d s m := by
  unfold PyGraph.subgraphNodes
  rw [mem_subgraphNodes_aux]
  simp only [List.not_mem_nil, false_or]
  constructor
  · rintro ⟨s, hs, hn, he⟩; exact ⟨s, hs, hn, mem_egoNodes_iff.mp he⟩
  · rintro ⟨s, hs, hn, he⟩; exact ⟨s, hs, hn, mem_egoNodes_iff.mpr he⟩

theorem markDeleted_edges (g : PyGraph) (nodeId reason : String) :
    (g.markNodeAsDeleted nodeId reason).edges = g.edges := by
  unfold PyGraph.markNodeAsDeleted
  split
  · rfl
  · rfl

theorem markDeleted_hasNode (g : PyGraph) (nodeId reason x : String) :
    (g.markNodeAsDeleted nodeId reason).hasNode x = g.hasNode x := by
  unfold PyGraph.markNodeAsDeleted
  split
  · rfl
  · simp only [PyGraph.setNodeAttrs, PyGraph.hasNode, List.any_map]
    congr 1
    funext p
    by_cases h : p.1 = nodeId <;> simp [h]

theorem markDeleted_succ (g : PyGraph) (nodeId reason x : String) :
    (g.markNodeAsDeleted nodeId reason).succ x = g.succ x := by
  unfold PyGraph.succ
  rw [markDeleted_edges]

theorem markDeleted_succ_fun (g : PyGraph) (nodeId reason : String) :
    (g.markNodeAsDeleted nodeId reason).succ = g.succ :=
  funext (markDeleted_succ g nodeId reason)

theorem markDeleted_egoNodes (g : PyGraph) (nodeId reason s : String) (d : Nat) :
    (g.markNodeAsDeleted nodeId reason).egoNodes s d = g.egoNodes s d := by
  induction d with
  | zero => rfl
  | succ d ih =>
    simp only [PyGraph.egoNodes, ih, markDeleted_succ_fun]

/-- Soft deletion changes only node attributes: the retrieved subgraph's
node set is unchanged. -/
theorem markDeleted_subgraphNodes (g : PyGraph) (nodeId reason : String)
    (ids : List String) (d : Nat) :
    (g.markNodeAsDeleted nodeId reason).subgraphNodes ids d = g.subgraphNodes ids d := by
  unfold PyGraph.subgraphNodes
  congr 1
  funext acc entityId
  rw [markDeleted_hasNode, markDeleted_egoNodes]

end PyGraphLemmas

namespace ApplyLemmas

theorem setNodeAttrs_hasNode (g : PyGraph) (nodeId : String) (a : Attrs) (x : String) :
    (g.setNodeAttrs nodeId a).hasNode x = g.hasNode x := by
  simp only [PyGraph.setNodeAttrs, PyGraph.hasNode, List.any_map]
  congr 1
  funext p
  by_cases h : p.1 = nodeId <;> simp [h]

theorem addOrUpdateNodeCR_of_not_hasNode {g : PyGraph} {nodeId nodeType : String}
    {kwargs : Attrs} (h : ¬ g.hasNode nodeId) :
    g.addOrUpdateNodeCR nodeId nodeType kwargs =
      some { g with nodes := g.nodes ++ [(nodeId, attrsSet kwargs "type" (.str nodeType))] } := by
  unfold PyGraph.addOrUpdateNodeCR
  simp [h]

theorem addOrUpdateNodeCR_hasNode {g g' : PyGraph} {nodeId nodeType : String}
    {kwargs : Attrs} (h : g.addOrUpdateNodeCR nodeId nodeType kwargs = some g')
    (x : String) : g'.hasNode x = (g.hasNode x || x = nodeId) := by
  unfold PyGraph.addOrUpdateNodeCR at h
  by_cases hn : g.hasNode nodeId
  · simp only [hn, if_true] at h
    rcases hres : resolveAttrs g nodeId (g.nodeAttrs nodeId)
        (attrsSet kwargs "type" (.str nodeType)) with _ | resolved
    · rw [hres] at h; exact absurd h (by simp)
    · rw [hres] at h
      simp only [Option.some.injEq] at h
      subst h
      rw [setNodeAttrs_hasNode]
      by_cases hx : x = nodeId
      · subst hx; simp [hn]
      · simp [hx]
  · have hfalse : g.hasNode nodeId = false := by simpa using hn
    simp [hfalse] at h
    subst h
    simp only [PyGraph.hasNode, List.any_append, List.any_cons, List.any_nil]
    by_cases hx : x = nodeId
    · subst hx; simp
    · simp [Ne.symm hx, hx]

theorem applyNodeUpdate_hasNode (g : PyGraph) (nu : PlanNodeUpdate) (x : String) :
    ((applyNodeUpdate g nu).1).hasNode x = (g.hasNode x || x = nu.node_id) := by
  unfold applyNodeUpdate
  by_cases hn : g.hasNode nu.node_id
  · simp only [hn, not_true_eq_false, if_false]
    rcases hres : g.addOrUpdateNodeCR nu.node_id
        (match attrsGet (g.nodeAttrs nu.node_id) "type" with
          | some (.str t) => t
          | _ => "unknown") nu.attributes with _ | g'
    · by_cases hx : x = nu.node_id
      · subst hx; simp [hn]
      · simp [hx]
    · exact addOrUpdateNodeCR_hasNode hres x
  · simp only [hn, not_false_eq_true, if_true]
    rw [addOrUpdateNodeCR_of_not_hasNode hn]
    simp only [PyGraph.hasNode, List.any_append, List.any_cons, List.any_nil]
    by_cases hx : x = nu.node_id
    · subst hx; simp
    · simp [Ne.symm hx, hx]

theorem nodeUpdateFold_hasNode (l : List PlanNodeUpdate) (g : PyGraph) (c : Nat) (x : String) :
    ((l.foldl
      (fun (acc : PyGraph × Nat) nu =>
        ((applyNodeUpdate acc.1 nu).1,
          if (applyNodeUpdate acc.1 nu).2 then acc.2 else acc.2 - 1))
      (g, c)).1).hasNode x = (g.hasNode x || l.any (fun nu => x = nu.node_id)) := by
  induction l generalizing g c with
  | nil => simp
  | cons nu tl ih =>
    simp only [List.foldl_cons, List.any_cons]
    rw [ih, applyNodeUpdate_hasNode, Bool.or_assoc]

theorem addEdge_nodes (g : PyGraph) (s t r : String) :
    (g.addEdge s t r).nodes = g.nodes := by
  unfold PyGraph.addEdge
  split
  · rfl
  · split
    · rfl
    · split
      · rfl
      · rfl

theorem edgeAddFold_nodes (l : List PlanEdgeAdd) (g : PyGraph) :
    (l.foldl (fun acc e => acc.addEdge e.source e.target e.relationship) g).nodes = g.nodes := by
  induction l generalizing g with
  | nil => rfl
  | cons e tl ih =>
    simp only [List.foldl_cons]
    rw [ih, addEdge_nodes]

theorem hasNode_eq_of_nodes_eq {g g' : PyGraph} (h : g'.nodes = g.nodes) (x : String) :
    g'.hasNode x = g.hasNode x := by
  simp only [PyGraph.hasNode, h]

theorem deleteNode_not_hasNode (g : PyGraph) (nodeId : String) :
    ¬ ((g.deleteNode nodeId).2).hasNode nodeId := by
  unfold PyGraph.deleteNode
  by_cases h : g.hasNode nodeId
  · simp only [h, not_true_eq_false, if_false]
    simp only [PyGraph.hasNode, List.any_eq_true, not_exists]
    rintro p ⟨hp, he⟩
    rcases List.mem_filter.mp hp with ⟨-, hne⟩
    simp only [decide_eq_true_eq] at hne he
    exact hne he
  · rw [if_pos (by simp [h])]
    exact h

theorem deleteNode_hasNode_mono {g : PyGraph} {nodeId x : String}
    (h : ((g.deleteNode nodeId).2).hasNode x) : g.hasNode x := by
  unfold PyGraph.deleteNode at h
  by_cases hn : g.hasNode nodeId
  · simp only [hn, not_true_eq_false, if_false] at h
    simp only [PyGraph.hasNode, List.any_eq_true] at h ⊢
    obtain ⟨p, hp, he⟩ := h
    exact ⟨p, (List.mem_filter.mp hp).1, he⟩
  · simpa [hn] using h

theorem processNodeDeletion_not_hasNode {g : PyGraph} {nd : PlanNodeDelete} {x : String}
    (h : ¬ g.hasNode x) : ¬ ((processNodeDeletion g nd).1).hasNode x := by
  unfold processNodeDeletion
  split
  · rw [PyGraphLemmas.markDeleted_hasNode]; exact h
  · split
    · rcases hdel : g.deleteNode nd.node_id with ⟨ok, g'⟩
      cases ok
      · simp only [hdel]
        intro hx
        exact h (deleteNode_hasNode_mono (by rw [hdel]; exact hx))
      · simp only [hdel]
        intro hx
        exact h (deleteNode_hasNode_mono (by rw [hdel]; exact hx))
    · rw [PyGraphLemmas.markDeleted_hasNode]; exact h

theorem processNodeDeletion_lost {g : PyGraph} {nd : PlanNodeDelete}
    (h : nd.deletion_type = "lost") :
    ¬ ((processNodeDeletion g nd).1).hasNode nd.node_id := by
  unfold processNodeDeletion
  rw [h]
  simp only [if_false, if_true, String.reduceEq, reduceIte]
  rcases hdel : g.deleteNode nd.node_id with ⟨ok, g'⟩
  have := deleteNode_not_hasNode g nd.node_id
  rw [hdel] at this
  cases ok
  · exact this
  · exact this

theorem deleteEdge_nodes (g : PyGraph) (s t : String) (r : Option String) :
    ((g.deleteEdge s t r).2).nodes = g.nodes := by
  unfold PyGraph.deleteEdge
  by_cases h : g.hasEdge s t
  · rw [if_neg (by simp [h])]
    rcases r with _ | rel
    · rfl
    · dsimp only
      split
      · rfl
      · rfl
  · rw [if_pos (by simp [h])]

theorem edgeDelFold_nodes (l : List (String × String × String)) (p : PyGraph × Nat) :
    ((l.foldl
      (fun (acc : PyGraph × Nat) e =>
        match acc.1.deleteEdge e.1 e.2.1 (some e.2.2) with
        | (true, g') => (g', acc.2 + 1)
        | (false, g') => (g', acc.2))
      p).1).nodes = p.1.nodes := by
  induction l generalizing p with
  | nil => rfl
  | cons e tl ih =>
    simp only [List.foldl_cons]
    rcases hdel : p.1.deleteEdge e.1 e.2.1 (some e.2.2) with ⟨ok, g'⟩
    have hnodes : g'.nodes = p.1.nodes := by
      have := deleteEdge_nodes p.1 e.1 e.2.1 (some e.2.2)
      rw [hdel] at this
      exact this
    cases ok
    · simp only
      rw [ih]
      exact hnodes
    · simp only
      rw [ih]
      exact hnodes

theorem processEdgeDeletion_nodes (g : PyGraph) (ed : PlanEdgeDelete) :
    ((processEdgeDeletion g ed).1).nodes = g.nodes := by
  unfold processEdgeDeletion
  split
  · exact edgeDelFold_nodes _ (g, 0)
  · rcases hs : ed.source with _ | s
    · rfl
    · rcases ht : ed.target with _ | t
      · rfl
      · simp only
        rcases hdel : g.deleteEdge s t ed.relationship with ⟨ok, g'⟩
        have hnodes : g'.nodes = g.nodes := by
          have := deleteEdge_nodes g s t ed.relationship
          rw [hdel] at this
          exact this
        cases ok
        · simpa using hnodes
        · simpa using hnodes

end ApplyLemmas

namespace ApplyLemmas

theorem nodeDelFold_not_hasNode (l : List PlanNodeDelete) (p : PyGraph × Nat) (x : String)
    (h : ¬ p.1.hasNode x) :
    ¬ ((l.foldl
      (fun (acc : PyGraph × Nat) nd =>
        ((processNodeDeletion acc.1 nd).1, acc.2 + (processNodeDeletion acc.1 nd).2))
      p).1).hasNode x := by
  induction l generalizing p with
  | nil => exact h
  | cons nd tl ih =>
    simp only [List.foldl_cons]
    exact ih _ (processNodeDeletion_not_hasNode h)

theorem nodeDelFold_lost (l : List PlanNodeDelete) (p : PyGraph × Nat) (x : String)
    (h : ∃ nd ∈ l, nd.deletion_type = "lost" ∧ nd.node_id = x) :
    ¬ ((l.foldl
      (fun (acc : PyGraph × Nat) nd =>
        ((processNodeDeletion acc.1 nd).1, acc.2 + (processNodeDeletion acc.1 nd).2))
      p).1).hasNode x := by
  induction l generalizing p with
  | nil => simp at h
  | cons nd tl ih =>
    simp only [List.foldl_cons]
    rcases h with ⟨nd', hmem, hlost, hid⟩
    rcases List.mem_cons.mp hmem with rfl | hmem'
    · subst hid
      exact nodeDelFold_not_hasNode tl _ _ (processNodeDeletion_lost hlost)
    · exact ih _ ⟨nd', hmem', hlost, hid⟩

theorem edgeDeletionFold_nodes (l : List PlanEdgeDelete) (p : PyGraph × Nat) :
    ((l.foldl
      (fun (acc : PyGraph × Nat) ed =>
        ((processEdgeDeletion acc.1 ed).1, acc.2 + (processEdgeDeletion acc.1 ed).2))
      p).1).nodes = p.1.nodes := by
  induction l generalizing p with
  | nil => rfl
  | cons ed tl ih =>
    simp only [List.foldl_cons]
    rw [ih]
    exact processEdgeDeletion_nodes _ _

theorem processDeletionEvents_hasNode_lost {g : PyGraph} {u : UpdatePlan} {x : String}
    (h : ∃ nd ∈ u.nodes_to_delete, nd.deletion_type = "lost" ∧ nd.node_id = x) :
    ¬ ((processDeletionEvents g u).1).hasNode x := by
  unfold processDeletionEvents
  intro hx
  rw [hasNode_eq_of_nodes_eq (edgeDeletionFold_nodes u.edges_to_delete _)] at hx
  exact nodeDelFold_lost u.nodes_to_delete (g, 0) x h hx

theorem applyValidatedUpdates_hasNode (g : PyGraph) (u : UpdatePlan) (x : String) :
    ((applyValidatedUpdates g u).1).hasNode x =
      (((processDeletionEvents g u).1).hasNode x ||
        u.nodes_to_update.any (fun nu => x = nu.node_id)) := by
  unfold applyValidatedUpdates
  rw [hasNode_eq_of_nodes_eq (edgeAddFold_nodes u.edges_to_add _)]
  exact nodeUpdateFold_hasNode u.nodes_to_update _ _ x

theorem filter_pair_nil {s t : String} (l : List (String × String × String))
    (h : ∀ e ∈ l, ¬ (e.1 = s ∧ e.2.1 = t)) :
    l.filter (fun e => e.1 = s ∧ e.2.1 = t) = [] := by
  induction l with
  | nil => rfl
  | cons e tl ih =>
    rw [List.filter_cons]
    have he := h e (by simp)
    simp only [he, decide_eq_false_iff_not.mpr he]
    exact ih (fun e' he' => h e' (by simp [he']))

theorem replace_filter_labels {s t r : String} (l : List (String × String × String))
    (hnd : (l.map (fun e => (e.1, e.2.1))).Nodup)
    (hany : l.any (fun e => e.1 = s ∧ e.2.1 = t)) :
    (((l.map (fun e => if e.1 = s ∧ e.2.1 = t then (e.1, e.2.1, r) else e)).filter
        (fun e => e.1 = s ∧ e.2.1 = t)).map (fun e => e.2.2)) = [r] := by
  induction l with
  | nil => simp at hany
  | cons e tl ih =>
    simp only [List.map_cons, List.nodup_cons, List.mem_map] at hnd
    obtain ⟨hnotin, hnd'⟩ := hnd
    by_cases he : e.1 = s ∧ e.2.1 = t
    · simp only [List.map_cons, if_pos he, List.filter_cons]
      have hkeep : (decide (s = s ∧ t = t)) = true := by simp
      rw [he.1, he.2]
      simp only [hkeep]
      have hnone : ∀ e' ∈ tl, ¬ (e'.1 = s ∧ e'.2.1 = t) := by
        rintro e' he' ⟨h1, h2⟩
        exact hnotin ⟨e', he', by rw [h1, h2, ← he.1, ← he.2]⟩
      have : ∀ e' ∈ tl.map (fun e => if e.1 = s ∧ e.2.1 = t then (e.1, e.2.1, r) else e),
          ¬ (e'.1 = s ∧ e'.2.1 = t) := by
        rintro e' he'
        rcases List.mem_map.mp he' with ⟨a, ha, rfl⟩
        rw [if_neg (hnone a ha)]
        exact hnone a ha
      rw [filter_pair_nil _ this]
      rfl
    · simp only [List.map_cons, if_neg he, List.filter_cons]
      simp only [he, decide_eq_false_iff_not.mpr he]
      have hany' : tl.any (fun e => e.1 = s ∧ e.2.1 = t) := by
        rcases List.any_eq_true.mp hany with ⟨a, ha, hpa⟩
        rcases List.mem_cons.mp ha with rfl | ha'
        · exact absurd (by simpa using hpa) he
        · exact List.any_eq_true.mpr ⟨a, ha', hpa⟩
      exact ih hnd' hany'

theorem addEdge_labels {g : PyGraph} {s t r : String}
    (wf : EdgePairsNodup g) (hs : g.hasNode s) (ht : g.hasNode t) :
    (g.addEdge s t r).edgeLabelsBetween s t = [r] := by
  unfold PyGraph.addEdge PyGraph.edgeLabelsBetween
  rw [if_neg (by simp [hs]), if_neg (by simp [ht])]
  by_cases hany : g.edges.any (fun e => e.1 = s ∧ e.2.1 = t)
  · rw [if_pos hany]
    exact replace_filter_labels g.edges wf hany
  · rw [if_neg hany]
    simp only [List.filter_append]
    have hnone : ∀ e ∈ g.edges, ¬ (e.1 = s ∧ e.2.1 = t) := by
      intro e he hpe
      exact hany (List.any_eq_true.mpr ⟨e, he, by simpa using hpe⟩)
    rw [filter_pair_nil _ hnone]
    simp

theorem addEdge_wf {g : PyGraph} (s t r : String) (wf : EdgePairsNodup g) :
    EdgePairsNodup (g.addEdge s t r) := by
  unfold PyGraph.addEdge
  by_cases hs : g.hasNode s
  · rw [if_neg (by simp [hs])]
    by_cases ht : g.hasNode t
    · rw [if_neg (by simp [ht])]
      by_cases hany : g.edges.any (fun e => e.1 = s ∧ e.2.1 = t)
      · rw [if_pos hany]
        unfold EdgePairsNodup at wf ⊢
        simp only [List.map_map]
        have : ((fun e : String × String × String => (e.1, e.2.1)) ∘
            (fun e : String × String × String =>
              if e.1 = s ∧ e.2.1 = t then (e.1, e.2.1, r) else e)) =
            (fun e : String × String × String => (e.1, e.2.1)) := by
          funext e
          by_cases he : e.1 = s ∧ e.2.1 = t <;> simp [Function.comp, he]
        rw [this]
        exact wf
      · rw [if_neg hany]
        unfold EdgePairsNodup at wf ⊢
        simp only [List.map_append, List.map_cons, List.map_nil]
        rw [List.nodup_append]
        refine ⟨wf, by simp, ?_⟩
        intro p hp
        simp only [List.mem_singleton]
        rintro rfl
        rcases List.mem_map.mp hp with ⟨e, he, heq⟩
        apply hany
        refine List.any_eq_true.mpr ⟨e, he, ?_⟩
        have h1 : e.1 = s := congrArg Prod.fst heq
        have h2 : e.2.1 = t := congrArg Prod.snd heq
        simp [h1, h2]
    · rw [if_pos (by simp [ht])]
      exact wf
  · rw [if_pos (by simp [hs])]
    exact wf

theorem addEdge_hasNode (g : PyGraph) (s t r x : String) :
    (g.addEdge s t r).hasNode x = g.hasNode x :=
  hasNode_eq_of_nodes_eq (addEdge_nodes g s t r) x

end ApplyLemmas

/-- C1 (counterexample): a validated plan whose only entry is a
`nodes_to_add` upsert for node "hero" leaves the graph without "hero"
after apply — the apply path reads only `nodes_to_update`, so this upsert
does not result in the node being inserted, contradicting the claim. -/
theorem C1_counterexample :
    ¬ ((applyValidatedUpdates PyGraph.empty
        { nodes_to_add := [⟨"hero", "character", []⟩] }).1).hasNode "hero" := by
  decide

/-- C1 (amended): `_apply_validated_updates` processes deletions first,
then `nodes_to_update` upserts, then edge additions: every node listed in
`nodes_to_update` is present afterwards (even when also hard-deleted by the
same plan, since deletes run first), a hard-deleted node not re-upserted is
absent afterwards, and the `nodes_to_add` entries are ignored by both the
synchronous and the windowed apply path (which additionally ignores all
deletions). -/
theorem C1_apply_order_and_upserts (g : PyGraph) (u : UpdatePlan) :
    (∀ nu ∈ u.nodes_to_update, ((applyValidatedUpdates g u).1).hasNode nu.node_id) ∧
    (∀ nd ∈ u.nodes_to_delete, nd.deletion_type = "lost" →
      (∀ nu ∈ u.nodes_to_update, nu.node_id ≠ nd.node_id) →
      ¬ ((applyValidatedUpdates g u).1).hasNode nd.node_id) ∧
    (∀ l, applyValidatedUpdates g { u with nodes_to_add := l } =
      applyValidatedUpdates g u) ∧
    (∀ l dn de, delayedApplyUpdates g
        { u with nodes_to_add := l, nodes_to_delete := dn, edges_to_delete := de } =
      delayedApplyUpdates g u) := by
  refine ⟨?_, ?_, fun l => rfl, fun l dn de => rfl⟩
  · intro nu hmem
    rw [ApplyLemmas.applyValidatedUpdates_hasNode]
    have : u.nodes_to_update.any (fun v => nu.node_id = v.node_id) = true :=
      List.any_eq_true.mpr ⟨nu, hmem, by simp⟩
    simp [this]
  · intro nd hmem hlost hnotup
    rw [ApplyLemmas.applyValidatedUpdates_hasNode]
    intro hcontra
    rcases Bool.or_eq_true_iff.mp hcontra with hdel | hup
    · exact ApplyLemmas.processDeletionEvents_hasNode_lost
        ⟨nd, hmem, hlost, rfl⟩ hdel
    · rcases List.any_eq_true.mp hup with ⟨nu, hnu, heq⟩
      exact hnotup nu hnu (Eq.symm (by simpa using heq))

/-- C1 (witness): instantiates the amended apply theorem on a concrete
plan that hard-deletes "sword", upserts "hero" and "sword2", and carries a
`nodes_to_add` entry. -/
theorem C1_apply_order_and_upserts_witness :
    ((applyValidatedUpdates
        (PyGraph.empty.addOrUpdateNode "sword" "item" [])
        { nodes_to_add := [⟨"ghost", "item", []⟩]
          nodes_to_update := [⟨"hero", some "character", []⟩]
          nodes_to_delete := [⟨"sword", "lost", "dropped"⟩] }).1).hasNode "hero" ∧
    ¬ ((applyValidatedUpdates
        (PyGraph.empty.addOrUpdateNode "sword" "item" [])
        { nodes_to_add := [⟨"ghost", "item", []⟩]
          nodes_to_update := [⟨"hero", some "character", []⟩]
          nodes_to_delete := [⟨"sword", "lost", "dropped"⟩] }).1).hasNode "sword" := by
  refine ⟨?_, ?_⟩
  · exact (C1_apply_order_and_upserts _ _).1 ⟨"hero", some "character", []⟩ (by decide)
  · exact (C1_apply_order_and_upserts _ _).2.1 ⟨"sword", "lost", "dropped"⟩
      (by decide) (by decide) (by decide)

/-- C2 (counterexample): the placeholder validator returns the plan
unchanged, so an edge whose endpoints are in neither the empty graph nor
the plan's node entries survives validation, contradicting the claim that
such dangling edges are dropped. -/
theorem C2_counterexample :
    (⟨"a", "b", "knows", []⟩ : PlanEdgeAdd) ∈
      (ValidationLayer.validate { edges_to_add := [⟨"a", "b", "knows", []⟩] }
        PyGraph.empty).edges_to_add ∧
    ¬ PyGraph.empty.hasNode "a" ∧
    (ValidationLayer.validate { edges_to_add := [⟨"a", "b", "knows", []⟩] }
        PyGraph.empty).nodes_to_update = [] ∧
    (ValidationLayer.validate { edges_to_add := [⟨"a", "b", "knows", []⟩] }
        PyGraph.empty).nodes_to_add = [] := by
  decide

/-- C2 (amended): the validator never raises but performs no filtering —
it returns the incoming plan unchanged for every plan and graph view;
dangling edges are instead dropped at apply time, where `add_edge` with a
missing endpoint leaves the graph unchanged. -/
theorem C2_validator_returns_plan_unchanged :
    (∀ (u : UpdatePlan) (kg : PyGraph), ValidationLayer.validate u kg = u) ∧
    (∀ (g : PyGraph) (s t r : String),
      (¬ g.hasNode s ∨ ¬ g.hasNode t) → g.addEdge s t r = g) := by
  refine ⟨fun u kg => rfl, ?_⟩
  intro g s t r h
  unfold PyGraph.addEdge
  rcases h with h | h
  · rw [if_pos h]
  · by_cases hs : g.hasNode s
    · rw [if_neg (by simp [hs]), if_pos h]
    · rw [if_pos (by simp [hs])]

/-- C2 (witness): instantiates the amended validator theorem on a concrete
plan, and the missing-endpoint half on the empty graph. -/
theorem C2_validator_returns_plan_unchanged_witness :
    ValidationLayer.validate { edges_to_add := [⟨"a", "b", "knows", []⟩] }
        PyGraph.empty = { edges_to_add := [⟨"a", "b", "knows", []⟩] } ∧
    PyGraph.empty.addEdge "a" "b" "knows" = PyGraph.empty :=
  ⟨C2_validator_returns_plan_unchanged.1 _ _,
    C2_validator_returns_plan_unchanged.2 _ "a" "b" "knows" (Or.inl (by decide))⟩

/-- C3 (counterexample): soft deletion only sets attributes, so after
marking node "X" deleted, `get_subgraph_for_context(["X"], 1)` still
contains "X", contradicting the claim that deleted nodes are excluded. -/
theorem C3_counterexample :
    "X" ∈ ((PyGraph.empty.addOrUpdateNode "X" "character"
        []).markNodeAsDeleted "X" "death").subgraphNodes ["X"] 1 ∧
    attrsGet (((PyGraph.empty.addOrUpdateNode "X" "character"
        []).markNodeAsDeleted "X" "death").nodeAttrs "X") "_deleted" =
      some (.bool true) := by
  decide

/-- C3 (amended): `get_subgraph_for_context` returns the union of
ego-graphs reached from each seed present in the graph by following at
most `depth` OUTGOING edges (not edges in either direction), and
soft-deleted nodes are not excluded: marking a node deleted does not change
the subgraph's node set at all, so after soft-deleting X,
`Subgraph({X}, 1)` still contains X. -/
theorem C3_subgraph_outgoing_and_keeps_deleted :
    (∀ (g : PyGraph) (ids : List String) (d : Nat) (m : String),
      m ∈ g.subgraphNodes ids d ↔ ∃ s ∈ ids, g.hasNode s ∧ g.ReachLe d s m) ∧
    (∀ (g : PyGraph) (nodeId reason : String) (ids : List String) (d : Nat),
      (g.markNodeAsDeleted nodeId reason).subgraphNodes ids d =
        g.subgraphNodes ids d) :=
  ⟨fun _ _ _ _ => PyGraphLemmas.mem_subgraphNodes_iff,
    fun g n r ids d => PyGraphLemmas.markDeleted_subgraphNodes g n r ids d⟩

/-- C4 (counterexample): on the `DiGraph`, adding an edge between the same
ordered pair with a second, different label overwrites the first: after
`add_edge(s, t, "l1")` and `add_edge(s, t, "l2")` only the `"l2"` edge
remains, contradicting the claim that both labelled edges coexist. -/
theorem C4_counterexample :
    (((PyGraph.empty.addOrUpdateNode "s" "character" []).addOrUpdateNode
        "t" "character" []).addEdge "s" "t" "l1").addEdge "s" "t" "l2" =
      { nodes := [("s", [("type", .str "character")]),
                  ("t", [("type", .str "character")])]
        edges := [("s", "t", "l2")] } ∧
    ¬ "l1" ∈ ((((PyGraph.empty.addOrUpdateNode "s" "character"
        []).addOrUpdateNode "t" "character" []).addEdge "s" "t"
        "l1").addEdge "s" "t" "l2").edgeLabelsBetween "s" "t" := by
  decide

/-- C4 (amended): for existing nodes s and t, `add_edge(s, t, l1)` followed
by `add_edge(s, t, l2)` leaves exactly one edge between the ordered pair
(s, t), carrying label l2: a later add overwrites the stored relationship
regardless of whether the labels are equal (last-write-wins applies to the
relationship and attributes of the single edge slot of the pair). -/
theorem C4_second_addEdge_overwrites (g : PyGraph) (s t l1 l2 : String)
    (wf : ApplyLemmas.EdgePairsNodup g) (hs : g.hasNode s) (ht : g.hasNode t) :
    ((g.addEdge s t l1).addEdge s t l2).edgeLabelsBetween s t = [l2] :=
  ApplyLemmas.addEdge_labels (ApplyLemmas.addEdge_wf s t l1 wf)
    (by rw [ApplyLemmas.addEdge_hasNode]; exact hs)
    (by rw [ApplyLemmas.addEdge_hasNode]; exact ht)

/-- C4 (witness): instantiates the overwrite theorem on a concrete
two-node graph with the distinct labels "l1" and "l2". -/
theorem C4_second_addEdge_overwrites_witness :
    ((((PyGraph.empty.addOrUpdateNode "s" "character" []).addOrUpdateNode
        "t" "character" []).addEdge "s" "t" "l1").addEdge "s" "t"
        "l2").edgeLabelsBetween "s" "t" = ["l2"] :=
  C4_second_addEdge_overwrites _ "s" "t" "l1" "l2" (by decide) (by decide) (by decide)

/-- C6 (counterexample): merging the list attributes old = [2] and
new = [1] returns [1, 2] (the CPython set-iteration order), while the
set-union with input order preserved would be [2, 1] — the order of the
inputs is not preserved. -/
theorem C6_counterexample :
    PyGraph.empty.resolveAttributeConflict "p" "tags" (.list [2]) (.list [1]) =
      some (.list [1, 2]) ∧
    specOrderPreservedUnion [2] [1] = [2, 1] ∧
    ((([1, 2] : List Nat) = [2, 1]) → False) := by
  decide

/-- C6 (amended): merging two list-valued attributes yields the set-union
with duplicates removed — the result holds exactly the elements of the two
inputs, each once — but in the hash-set iteration order (ascending for the
modelled small-int domain), not in input order.  As a pure function of its
inputs the resolution is deterministic within one interpreter run. -/
theorem C6_list_merge_set_union (g : PyGraph) (nodeId attrName : String)
    (o n : List Nat) (h : ∀ x ∈ o ++ n, x < 8) :
    ∃ r, g.resolveAttributeConflict nodeId attrName (.list o) (.list n) =
        some (.list r) ∧
      r.Nodup ∧ (∀ x, x ∈ r ↔ (x ∈ o ∨ x ∈ n)) := by
  refine ⟨pySmallIntSetList (o ++ n), rfl, ?_, ?_⟩
  · exact List.Nodup.filter _ (List.nodup_range 8)
  · intro x
    simp only [pySmallIntSetList, List.mem_filter, List.mem_range,
      List.contains_iff_exists_mem_beq]
    constructor
    · rintro ⟨-, y, hy, hxy⟩
      rcases List.mem_append.mp hy with h1 | h1
      · exact Or.inl (by rwa [show x = y from by simpa using hxy])
      · exact Or.inr (by rwa [show x = y from by simpa using hxy])
    · intro hx
      have hmem : x ∈ o ++ n := List.mem_append.mpr hx
      exact ⟨h x hmem, x, hmem, by simp⟩

/-- C6 (witness): instantiates the list-merge theorem on the concrete
inputs old = [1, 3] and new = [3, 2]. -/
theorem C6_list_merge_set_union_witness :
    ∃ r, PyGraph.empty.resolveAttributeConflict "p" "tags"
        (.list [1, 3]) (.list [3, 2]) = some (.list r) ∧
      r.Nodup ∧ (∀ x, x ∈ r ↔ (x ∈ ([1, 3] : List Nat) ∨ x ∈ ([3, 2] : List Nat))) :=
  C6_list_merge_set_union PyGraph.empty "p" "tags" [1, 3] [3, 2] (by decide)

/-- C7 (counterexample): the health merge takes `min(new, max_health)`
with no lower clamp at 0: for a node with max_health = 100, merging
health 50 with an incoming -5 resolves to -5, a negative health,
contradicting the claimed clamping to [0, max_health]. -/
theorem C7_counterexample :
    (PyGraph.empty.addOrUpdateNode "p" "character"
        [("max_health", .int 100), ("health", .int 50)]).resolveAttributeConflict
      "p" "health" (.int 50) (.int (-5)) = some (.int (-5)) ∧
    ((-5 : Int) < 0) := by
  decide

/-- C7 (amended): when the merged node carries a numeric `max_health`
attribute, the resolved health is `min(new, max_health)` — it never
exceeds `max_health`, but it is only capped from above and may be
negative (no clamping at 0). -/
theorem C7_health_capped_above_only (g : PyGraph) (nodeId : String) (o n m : Int)
    (h : attrsGet (g.nodeAttrs nodeId) "max_health" = some (.int m)) :
    g.resolveAttributeConflict nodeId "health" (.int o) (.int n) =
        some (.int (min n m)) ∧
      min n m ≤ m := by
  constructor
  · simp only [PyGraph.resolveAttributeConflict]
    rw [if_pos (Or.inl trivial), h]
  · exact min_le_right n m

/-- C7 (witness): instantiates the health-cap theorem on a node with
max_health = 100 and incoming health 120 (capped to 100). -/
theorem C7_health_capped_above_only_witness :
    (PyGraph.empty.addOrUpdateNode "p" "character"
        [("max_health", .int 100)]).resolveAttributeConflict
      "p" "health" (.int 50) (.int 120) = some (.int (min 120 100)) ∧
    min (120 : Int) 100 ≤ 100 :=
  C7_health_capped_above_only _ "p" 50 120 100 (by decide)

namespace WindowLemmas

theorem isGenBelow_mono {c c' : Nat} (h : c ≤ c') {id : TurnId}
    (hg : TurnId.isGenBelow c id = true) : TurnId.isGenBelow c' id = true := by
  rcases id with n | s
  · simp only [TurnId.isGenBelow, decide_eq_true_eq] at hg ⊢
    omega
  · rw [TurnId.isGenBelow] at hg
    exact absurd hg (by simp)

theorem retained_mem {m : SlidingWindowManager} {t : ConversationTurn}
    (ht : t ∈ (if m.conversations.length ≥ m.window_size then
      m.conversations.drop 1 else m.conversations)) : t ∈ m.conversations := by
  split at ht
  · exact List.mem_of_mem_drop ht
  · exact ht

theorem addTurn_WF {m : SlidingWindowManager} (hwf : m.WF) (u l : String) :
    ((m.addTurn u l).2).WF := by
  obtain ⟨hbound, hnd⟩ := hwf
  constructor
  · intro t ht
    simp only [SlidingWindowManager.addTurn, List.mem_append, List.mem_singleton] at ht
    rcases ht with ht | rfl
    · exact isGenBelow_mono (Nat.le_succ _) (hbound t (retained_mem ht))
    · simp [TurnId.isGenBelow, SlidingWindowManager.addTurn]
  · simp only [SlidingWindowManager.addTurn, List.map_append, List.map_cons, List.map_nil]
    rw [List.nodup_append]
    refine ⟨?_, by simp, ?_⟩
    · split
      · exact hnd.sublist ((List.drop_sublist 1 _).map _)
      · exact hnd
    · intro id hid
      simp only [List.mem_singleton]
      rintro rfl
      rcases List.mem_map.mp hid with ⟨t, ht, hteq⟩
      have := hbound t (retained_mem ht)
      rw [hteq] at this
      simp [TurnId.isGenBelow] at this

theorem drop_subset_drop {α : Type} (l : List α) {j k : Nat} (h : j ≤ k) :
    l.drop k ⊆ l.drop j := by
  intro a ha
  rw [show k = (k - j) + j by omega, Nat.add_comm, ← List.drop_drop] at ha
  exact List.mem_of_mem_drop ha

theorem addTurn_recentUnprocessed {m : SlidingWindowManager}
    (hinv : m.recentUnprocessed) (u l : String) :
    ((m.addTurn u l).2).recentUnprocessed := by
  intro t ht
  simp only [SlidingWindowManager.addTurn] at ht
  rw [List.drop_append_eq_append_drop] at ht
  rcases List.mem_append.mp ht with hleft | hright
  · -- the turn comes from the retained old turns: it was already among the
    -- most recent `processing_delay` turns of the old window
    have hmem : t ∈ m.conversations.drop
        (m.conversations.length - m.processing_delay) := by
      revert hleft
      split
      · intro hleft
        rw [List.drop_drop] at hleft
        refine drop_subset_drop _ ?_ hleft
        simp only [List.length_append, List.length_drop, List.length_cons]
        omega
      · intro hleft
        refine drop_subset_drop _ ?_ hleft
        simp only [List.length_append, List.length_cons]
        omega
    exact hinv t hmem
  · rcases List.mem_of_mem_drop hright with h
    simp only [List.mem_singleton] at h
    subst h
    rfl

end WindowLemmas

namespace WindowLemmas

theorem getProcessingTarget_spec (m : SlidingWindowManager) (t : ConversationTurn) :
    m.getProcessingTarget = some t ↔
      m.processing_delay < m.conversations.length ∧
      m.conversations.get? (m.conversations.length - 1 - m.processing_delay) = some t ∧
      t.grag_processed = false := by
  unfold SlidingWindowManager.getProcessingTarget
  by_cases hlen : m.conversations.length ≤ m.processing_delay
  · simp only [hlen, if_true]
    constructor
    · intro h; cases h
    · rintro ⟨hlt, -, -⟩; omega
  · simp only [hlen, if_false]
    rcases hidx : m.conversations.get? (m.conversations.length - 1 - m.processing_delay)
      with _ | t0
    · constructor
      · intro h; cases h
      · rintro ⟨-, h, -⟩; cases h
    · dsimp only
      by_cases hp : t0.grag_processed
      · rw [if_pos hp]
        constructor
        · intro h; cases h
        · rintro ⟨-, hsome, hfalse⟩
          rw [Option.some_inj] at hsome
          rw [← hsome] at hfalse
          rw [hp] at hfalse
          cases hfalse
      · rw [if_neg hp]
        constructor
        · intro h
          rw [Option.some_inj] at h
          subst h
          exact ⟨by omega, rfl, by simpa using hp⟩
        · rintro ⟨-, hsome, -⟩
          rw [Option.some_inj] at hsome
          rw [hsome]

theorem markProcessed_WF {m : SlidingWindowManager} (hwf : m.WF) (id : TurnId)
    (b : Bool) : ((m.markProcessed id b).2).WF := by
  obtain ⟨hbound, hnd⟩ := hwf
  unfold SlidingWindowManager.markProcessed
  split
  · constructor
    · intro t ht
      rcases List.mem_map.mp ht with ⟨t0, ht0, rfl⟩
      have := hbound t0 ht0
      split
      · exact this
      · exact this
    · have hids : (m.conversations.map (fun t =>
          if t.turn_id = id then { t with grag_processed := b } else t)).map
            (fun t => t.turn_id) = m.conversations.map (fun t => t.turn_id) := by
        rw [List.map_map]
        congr 1
        funext t
        by_cases h : t.turn_id = id <;> simp [Function.comp, h]
      simpa [hids] using hnd
  · exact ⟨hbound, hnd⟩

theorem markProcessed_recentUnprocessed {m : SlidingWindowManager}
    {target : ConversationTurn}
    (hnd : (m.conversations.map (fun t => t.turn_id)).Nodup)
    (hinv : m.recentUnprocessed)
    (htarget : m.getProcessingTarget = some target) (b : Bool) :
    ((m.markProcessed target.turn_id b).2).recentUnprocessed := by
  obtain ⟨hlt, hget, -⟩ := (getProcessingTarget_spec m target).mp htarget
  unfold SlidingWindowManager.markProcessed
  split
  · intro t ht
    simp only [List.length_map] at ht
    rw [← List.map_drop] at ht
    rcases List.mem_map.mp ht with ⟨t0, ht0, rfl⟩
    have hne : t0.turn_id ≠ target.turn_id := by
      -- the target sits strictly before the final `processing_delay` turns,
      -- and the window's ids are pairwise distinct
      set K := m.conversations.length - m.processing_delay with hK
      have hidxlt : m.conversations.length - 1 - m.processing_delay <
          (m.conversations.take K).length := by
        rw [List.length_take]
        omega
      have htake : (m.conversations.take K).get?
          (m.conversations.length - 1 - m.processing_delay) = some target := by
        rw [← List.get?_append hidxlt, List.take_append_drop]
        exact hget
      have htargetmem : target ∈ m.conversations.take K := List.get?_mem htake
      have hndsplit := hnd
      rw [← List.take_append_drop K m.conversations, List.map_append,
        List.nodup_append] at hndsplit
      intro heq
      exact hndsplit.2.2 (List.mem_map_of_mem _ htargetmem)
        (heq ▸ List.mem_map_of_mem _ ht0)
    rw [if_neg hne]
    exact hinv t0 ht0
  · exact hinv

end WindowLemmas

/-- C5: after every `process_new_conversation` call the most recent
`processing_delay` turns of the window are unprocessed (the invariant is
preserved from call to call, together with the id well-formedness that the
induction rests on, so it holds along every trace from a fresh window), and
`get_processing_target` returns the turn at index
`len - 1 - processing_delay` exactly when the window holds more than
`processing_delay` turns and that turn is unprocessed, otherwise `None`. -/
theorem C5_delay_invariant (m : SlidingWindowManager) (u l : String) (b : Bool)
    (hwf : m.WF) (hinv : m.recentUnprocessed) :
    (∀ t, m.getProcessingTarget = some t ↔
      m.processing_delay < m.conversations.length ∧
      m.conversations.get? (m.conversations.length - 1 - m.processing_delay) = some t ∧
      t.grag_processed = false) ∧
    ((processNewConversation m u l b).1).recentUnprocessed ∧
    ((processNewConversation m u l b).1).WF := by
  refine ⟨fun t => WindowLemmas.getProcessingTarget_spec m t, ?_, ?_⟩
  · unfold processNewConversation
    rcases htar : ((m.addTurn u l).2).getProcessingTarget with _ | target
    · simp only [htar]
      exact WindowLemmas.addTurn_recentUnprocessed hinv u l
    · simp only [htar]
      exact WindowLemmas.markProcessed_recentUnprocessed
        (WindowLemmas.addTurn_WF hwf u l).2
        (WindowLemmas.addTurn_recentUnprocessed hinv u l) htar b
  · unfold processNewConversation
    rcases htar : ((m.addTurn u l).2).getProcessingTarget with _ | target
    · simp only [htar]
      exact WindowLemmas.addTurn_WF hwf u l
    · simp only [htar]
      exact WindowLemmas.markProcessed_WF (WindowLemmas.addTurn_WF hwf u l) _ b

/-- C5 (witness): instantiates the delay-invariant theorem on a window of
size 4 with delay 1 holding one unprocessed turn. -/
theorem C5_delay_invariant_witness :
    exampleWindow.WF ∧
    ((processNewConversation exampleWindow "u2" "r2" true).1).recentUnprocessed :=
  ⟨by decide,
    (C5_delay_invariant exampleWindow "u2" "r2" true (by decide) (by decide)).2.1⟩

namespace SyncLemmas

theorem turnIdTruthy_ext {s : String} (h : s ≠ "") :
    turnIdTruthy (.ext s) = true := by
  unfold turnIdTruthy
  split
  · next heq =>
    cases heq
    exact absurd rfl h
  · rfl

theorem getTurnById_ext_none {m : SlidingWindowManager}
    (hgen : allGenIds m = true) (s : String) :
    m.getTurnById (.ext s) = none := by
  unfold SlidingWindowManager.getTurnById
  apply List.find?_eq_none.mpr
  intro t ht
  have := List.all_eq_true.mp hgen t ht
  rcases hid : t.turn_id with n | s'
  · simp [hid]
  · rw [hid] at this
    simp at this

theorem addTurn_allGen {m : SlidingWindowManager} (hgen : allGenIds m = true)
    (u l : String) : allGenIds (m.addTurn u l).2 = true := by
  rw [allGenIds, List.all_eq_true]
  intro t ht
  simp only [SlidingWindowManager.addTurn, List.mem_append, List.mem_singleton] at ht
  rcases ht with ht | rfl
  · exact List.all_eq_true.mp hgen t (WindowLemmas.retained_mem ht)
  · rfl

theorem handleExisting_oow (st : ConflictResolver) (e : ConversationTurn)
    (nu nl : String) :
    (handleExistingTurnConflict st e nu nl).1.out_of_window = 0 := by
  unfold handleExistingTurnConflict
  rcases hsnap : snapshotsGet st.snapshots e.turn_id with _ | snap
  · simp only [hsnap]
  · simp only [hsnap]
    split
    · split
      · split <;> rfl
      · rfl
    · rfl

theorem handleExisting_counts (st : ConflictResolver) (e : ConversationTurn)
    (nu nl : String) :
    (handleExistingTurnConflict st e nu nl).1.conflicts_resolved ≤
      (handleExistingTurnConflict st e nu nl).1.conflicts_detected := by
  unfold handleExistingTurnConflict
  rcases hsnap : snapshotsGet st.snapshots e.turn_id with _ | snap
  · simp only [hsnap]
    exact Nat.le_refl _
  · simp only [hsnap]
    split
    · split
      · split <;> exact Nat.le_refl _
      · exact Nat.zero_le _
    · exact Nat.le_refl _

theorem processTavernTurn_counts (st : ConflictResolver) (ws : List Nat)
    (r : TavernTurn) :
    (processTavernTurn st ws r).1.conflicts_resolved ≤
      (processTavernTurn st ws r).1.conflicts_detected := by
  unfold processTavernTurn
  dsimp only
  split
  · exact Nat.le_refl _
  · rcases r.id with _ | tid
    · exact Nat.le_refl _
    · dsimp only
      split
      · exact Nat.le_refl _
      · rcases hfind : st.window.getTurnById tid with _ | existing
        · simp only [hfind]
          split <;> exact Nat.le_refl _
        · simp only [hfind]
          exact handleExisting_counts st existing r.user r.assistant

theorem processTavernTurn_oow_cases (st : ConflictResolver) (ws : List Nat)
    (r : TavernTurn) :
    (processTavernTurn st ws r).1.out_of_window = 0 ∨
      processTavernTurn st ws r = ({ out_of_window := 1 }, st) := by
  unfold processTavernTurn
  dsimp only
  split
  · exact Or.inr rfl
  · refine Or.inl ?_
    rcases r.id with _ | tid
    · rfl
    · dsimp only
      split
      · rfl
      · rcases hfind : st.window.getTurnById tid with _ | existing
        · simp only [hfind]
          split <;> rfl
        · simp only [hfind]
          exact handleExisting_oow st existing r.user r.assistant

theorem syncFold_counts (history : List TavernTurn) (ws : List Nat)
    (acc : SyncResult × ConflictResolver)
    (h : acc.1.conflicts_resolved ≤ acc.1.conflicts_detected) :
    ((history.foldl
      (fun (acc : SyncResult × ConflictResolver) r =>
        ((acc.1).add (processTavernTurn acc.2 ws r).1,
          (processTavernTurn acc.2 ws r).2))
      acc).1).conflicts_resolved ≤
    ((history.foldl
      (fun (acc : SyncResult × ConflictResolver) r =>
        ((acc.1).add (processTavernTurn acc.2 ws r).1,
          (processTavernTurn acc.2 ws r).2))
      acc).1).conflicts_detected := by
  induction history generalizing acc with
  | nil => exact h
  | cons r tl ih =>
    simp only [List.foldl_cons]
    exact ih _ (Nat.add_le_add h (processTavernTurn_counts acc.2 ws r))

end SyncLemmas

/-- C8: for every sync, the returned counters satisfy
`conflicts_resolved ≤ conflicts_detected`, and a record counted as
`out_of_window` leaves the resolver state — the sliding window and the
snapshot map — unchanged (the sync path never touches the knowledge
graph at all: its only collaborator is the window). -/
theorem C8_sync_accounting :
    (∀ (st : ConflictResolver) (history : List TavernTurn),
      (syncConversationState st history).1.conflicts_resolved ≤
        (syncConversationState st history).1.conflicts_detected) ∧
    (∀ (st : ConflictResolver) (ws : List Nat) (r : TavernTurn),
      0 < (processTavernTurn st ws r).1.out_of_window →
      (processTavernTurn st ws r).2 = st) := by
  constructor
  · intro st history
    exact SyncLemmas.syncFold_counts history _ _ (Nat.le_refl 0)
  · intro st ws r h
    rcases SyncLemmas.processTavernTurn_oow_cases st ws r with hzero | heq
    · rw [hzero] at h
      cases h
    · rw [heq]

/-- C8 (witness): instantiates the accounting theorem on a sync whose one
record carries sequence 5, outside the example window's sequences. -/
theorem C8_sync_accounting_witness :
    0 < (processTavernTurn exampleResolver [1] { sequence := some 5 }).1.out_of_window ∧
    (processTavernTurn exampleResolver [1] { sequence := some 5 }).2 = exampleResolver ∧
    (syncConversationState exampleResolver
        [{ sequence := some 5 }]).1.conflicts_resolved ≤
      (syncConversationState exampleResolver
        [{ sequence := some 5 }]).1.conflicts_detected :=
  ⟨by decide,
    C8_sync_accounting.2 exampleResolver [1] { sequence := some 5 } (by decide),
    C8_sync_accounting.1 exampleResolver [{ sequence := some 5 }]⟩

namespace SyncLemmas

theorem processTavernTurn_new_record {st : ConflictResolver} {r : TavernTurn}
    {s : String} (hid : r.id = some (.ext s)) (hs : s ≠ "")
    (hseq : r.sequence = none) (hadd : shouldAddTurnToWindow r = true)
    (hgen : allGenIds st.window = true) (ws : List Nat) :
    processTavernTurn st ws r =
      ({ new_turns := 1 },
        { window := (st.window.addTurn r.user r.assistant).2
          snapshots := snapshotsSet st.snapshots (.gen st.window.uuidCounter)
            (mkSnapshot (st.window.addTurn r.user r.assistant).1) }) := by
  unfold processTavernTurn
  simp only [hseq, hid, turnIdTruthy_ext hs, getTurnById_ext_none hgen, hadd]
  rfl

theorem checkForDeleted_allGen {st : ConflictResolver}
    (hgen : allGenIds st.window = true) {r : TavernTurn} {s : String}
    (hid : r.id = some (.ext s)) (hs : s ≠ "") :
    checkForDeletedTurns [r] st = st.window.conversations.length := by
  unfold checkForDeletedTurns
  have hids : ([r].filterMap (fun r =>
      match r.id with
      | some tid => if turnIdTruthy tid then some tid else none
      | none => none)) = [.ext s] := by
    simp [hid, turnIdTruthy_ext hs]
  rw [hids]
  have : (st.window.conversations.filter
      (fun t => ¬ ([TurnId.ext s].contains t.turn_id))) =
      st.window.conversations := by
    apply List.filter_eq_self.mpr
    intro t ht
    have := List.all_eq_true.mp hgen t ht
    rcases hidt : t.turn_id with n | s'
    · simp [hidt]
    · rw [hidt] at this
      simp at this
  dsimp only
  rw [this]

end SyncLemmas

/-- C10: when a sync adds an unknown external record, the stored turn's id
is a freshly generated uuid, never the host-supplied id: the result counts
one new turn, the appended turn carries the next generated uuid (distinct
from every host string), the window still holds only generated ids, a
second sync of the same record again fails to find its id and adds it
again, and the deleted-turns check of a later sync counts every window
turn (in particular the turn added for this record) as deleted. -/
theorem C10_sync_generates_fresh_ids (st : ConflictResolver) (ws ws2 : List Nat)
    (r : TavernTurn) (s : String)
    (hid : r.id = some (.ext s)) (hs : s ≠ "") (hseq : r.sequence = none)
    (hadd : shouldAddTurnToWindow r = true) (hgen : allGenIds st.window = true) :
    (processTavernTurn st ws r).1.new_turns = 1 ∧
    (((processTavernTurn st ws r).2).window.conversations.getLast?.map
        (fun t => t.turn_id)) = some (.gen st.window.uuidCounter) ∧
    (TurnId.gen st.window.uuidCounter ≠ .ext s) ∧
    allGenIds ((processTavernTurn st ws r).2).window = true ∧
    (processTavernTurn ((processTavernTurn st ws r).2) ws2 r).1.new_turns = 1 ∧
    checkForDeletedTurns [r] ((processTavernTurn st ws r).2) =
      ((processTavernTurn st ws r).2).window.conversations.length := by
  have hmain := SyncLemmas.processTavernTurn_new_record hid hs hseq hadd hgen ws
  have hgen' : allGenIds ((processTavernTurn st ws r).2).window = true := by
    rw [hmain]
    exact SyncLemmas.addTurn_allGen hgen r.user r.assistant
  refine ⟨by rw [hmain], ?_, by simp, hgen', ?_, ?_⟩
  · rw [hmain]
    simp only [SlidingWindowManager.addTurn, List.getLast?_concat]
    rfl
  · have := SyncLemmas.processTavernTurn_new_record hid hs hseq hadd hgen' ws2
    rw [this]
  · exact SyncLemmas.checkForDeleted_allGen hgen' hid hs

/-- C10 (witness): instantiates the fresh-uuid theorem on the example
resolver and a host record with id "T5". -/
theorem C10_sync_generates_fresh_ids_witness :
    (processTavernTurn exampleResolver []
        { id := some (.ext "T5"), user := "hi", assistant := "yo" }).1.new_turns = 1 ∧
    checkForDeletedTurns [{ id := some (.ext "T5"), user := "hi", assistant := "yo" }]
        ((processTavernTurn exampleResolver []
          { id := some (.ext "T5"), user := "hi", assistant := "yo" }).2) =
      ((processTavernTurn exampleResolver []
        { id := some (.ext "T5"), user := "hi", assistant := "yo" }).2).window.conversations.length := by
  have h := C10_sync_generates_fresh_ids exampleResolver [] []
    { id := some (.ext "T5"), user := "hi", assistant := "yo" } "T5"
    (by decide) (by decide) (by decide) (by decide) (by decide)
  exact ⟨h.1, h.2.2.2.2.2⟩

set_option maxRecDepth 8192 in
/-- C9 (counterexample): with `max_context_length = 10` and a composed
context longer than 110 characters, the truncated output is far longer
than 10 characters — the claimed bound `length ≤ max_context_length` fails
(the slice `context[:10 - 100]` counts from the end and the 26-character
marker is appended unconditionally). -/
theorem C9_counterexample :
    (enhancePromptContext [] none noEntitiesGraphContext 10).length > 10 := by
  decide

/-- C9 (amended): when the composed context exceeds the caller-supplied
`max_context_length` L, the endpoint returns the first `L - 100`
characters of the composed context followed by the truncation marker; the
output therefore ends with the marker, and — provided `L ≥ 126` — its
length is `L - 74 ≤ L`.  The sections are preserved exactly insofar as
they lie within the first `L - 100` characters: the graph section, last in
the composition, is truncated first, but nothing prevents a long history
section from being cut as well, and for `L < 126` the output can exceed
`L`. -/
theorem C9_prefix_truncation (history : List (String × String))
    (worldTime : Option String) (graphContext : String) (maxLen : Nat)
    (h126 : 126 ≤ maxLen)
    (hover : (retrieveContextForPrompt history worldTime graphContext
      (enhanceRecentTurns maxLen)).length > maxLen) :
    enhancePromptContext history worldTime graphContext maxLen =
      String.mk ((retrieveContextForPrompt history worldTime graphContext
        (enhanceRecentTurns maxLen)).toList.take (maxLen - 100)) ++ truncationMarker ∧
    (enhancePromptContext history worldTime graphContext maxLen).length ≤ maxLen ∧
    ∃ pre, enhancePromptContext history worldTime graphContext maxLen =
      pre ++ truncationMarker := by
  have heq : enhancePromptContext history worldTime graphContext maxLen =
      String.mk ((retrieveContextForPrompt history worldTime graphContext
        (enhanceRecentTurns maxLen)).toList.take (maxLen - 100)) ++ truncationMarker := by
    unfold enhancePromptContext enhancePromptTruncate
    rw [if_pos hover]
    unfold pySliceTo
    rw [if_neg (by omega)]
    have harg : ((maxLen : Int) - 100).toNat = maxLen - 100 := by omega
    rw [harg]
  refine ⟨heq, ?_, ⟨_, heq⟩⟩
  rw [heq, String.length_append]
  have hmk : (String.mk ((retrieveContextForPrompt history worldTime graphContext
      (enhanceRecentTurns maxLen)).toList.take (maxLen - 100))).length =
      min (maxLen - 100) (retrieveContextForPrompt history worldTime graphContext
        (enhanceRecentTurns maxLen)).length := by
    show ((retrieveContextForPrompt history worldTime graphContext
      (enhanceRecentTurns maxLen)).toList.take (maxLen - 100)).length = _
    rw [List.length_take]
    rfl
  rw [hmk]
  have hmarker : truncationMarker.length = 26 := by decide
  rw [hmarker]
  omega

set_option maxRecDepth 8192 in
/-- C9 (witness): instantiates the truncation theorem with
`max_context_length = 126` and a composed context of more than 126
characters. -/
theorem C9_prefix_truncation_witness :
    (enhancePromptContext [] none noEntitiesGraphContext 126).length ≤ 126 :=
  (C9_prefix_truncation [] none noEntitiesGraphContext 126
    (by decide) (by decide)).2.1
